import Mathlib

/-!
Verification of the Omost ComfyUI plugin (`omost_nodes.py`).

The only algorithmic content of the file is `OmostLayoutCondNode`:

* `calc_cond_mask` computes, for an ordered list of canvas regions, a
  90×90 occlusion mask per region (global region = all ones; the other
  regions are processed in reverse list order, each taking the part of its
  rectangle not yet claimed).
* `encode_bag_of_subprompts` builds, for each suffix, the complete prompt
  `"".join(prefixes + [suffix])`, encodes each independently via the CLIP
  text-encode collaborator, concatenates the token embeddings and keeps the
  pooled vector of the first encoding.
* `layout_cond` runs `calc_cond_mask` and then encodes every region,
  dropping the first prefix for non-global regions.

We embed these shallowly: torch float grids become functions
`ℕ → ℕ → ℤ` (every value occurring in these grids is exactly 0.0 or 1.0,
on which float32 addition, subtraction and multiplication are exact, so
integer arithmetic is a faithful carrier), the CLIP encoder
is an uninterpreted function, `torch.cat(..., dim=1)` on token embeddings
is list concatenation, and the Python `assert` / list-index failures
become `Option`.
-/

/-- Grid side length: `CANVAS_SIZE = 90` in `calc_cond_mask`. -/
def CANVAS_SIZE : ℕ := 90

/-- A canvas mask: a 2-D float grid, modelled pointwise (only cells with
both coordinates `< CANVAS_SIZE` exist in the real tensor). -/
abbrev Mask := ℕ → ℕ → ℤ

/-- The `OmostCanvasCondition` dict: `rect` (4 Python ints), `prefixes`,
`suffixes`, and the `mask` entry which is absent until `calc_cond_mask`
stores it. -/
structure OmostCanvasCondition where
  rect : ℤ × ℤ × ℤ × ℤ
  prefixes : List String
  suffixes : List String
  mask : Option Mask

/-- Resolve one endpoint of a Python/torch slice on an axis of length
`len`: negative indices count from the end, and both ends clamp into
`[0, len]`. -/
def sliceIdx (len : ℕ) (i : ℤ) : ℕ :=
  if i < 0 then ((len : ℤ) + i).toNat else min i.toNat len

/-- Whether coordinate `r` (a valid cell index, `r < len` in the tensor)
is selected by the slice `lo:hi`. -/
def inSlice (lo hi : ℤ) (r : ℕ) : Bool :=
  sliceIdx CANVAS_SIZE lo ≤ r && r < sliceIdx CANVAS_SIZE hi

/-- Whether cell `(r, c)` is set by `mask[a:b, c:d] = 1.0`. -/
def rectCovers (rect : ℤ × ℤ × ℤ × ℤ) (r c : ℕ) : Bool :=
  inSlice rect.1 rect.2.1 r && inSlice rect.2.2.1 rect.2.2.2 c

/-- The grid built by `mask = torch.zeros(...); mask[a:b, c:d] = 1.0`. -/
def rectIndicator (rect : ℤ × ℤ × ℤ × ℤ) : Mask :=
  fun r c => if rectCovers rect r c then 1 else 0

/-- The loop of `calc_cond_mask` (lines 284–290): for each region, in the
order of the given list, build the rectangle indicator, multiply by
`1 - canvas_state`, add the result into `canvas_state`, and store it as
the region's mask.  Returns the final state and the processed regions in
the same order as given. -/
def maskLoop (st : Mask) : List OmostCanvasCondition → Mask × List OmostCanvasCondition
  | [] => (st, [])
  | cond :: rest =>
    let m : Mask := fun r c => rectIndicator cond.rect r c * (1 - st r c)
    let st' : Mask := fun r c => st r c + m r c
    let out := maskLoop st' rest
    (out.1, { cond with mask := some m } :: out.2)

/-- Embedding of `calc_cond_mask` (lines 269–292).  The `assert len(canvas_conds) > 0`
makes the empty list fail (`none`).  The first region gets the all-ones
mask; the remaining regions are traversed in reverse order
(`canvas_conds[1:][::-1]`) threading `canvas_state`, and the resulting
list keeps the original order. -/
def calc_cond_mask : List OmostCanvasCondition → Option (List OmostCanvasCondition)
  | [] => none
  | global_cond :: rest =>
    let g : OmostCanvasCondition := { global_cond with mask := some (fun _ _ => 1) }
    let processed := (maskLoop (fun _ _ => 0) rest.reverse).2
    some (g :: processed.reverse)

/-- Value of a region's stored mask at a cell (0 when the mask entry is
still absent). -/
def maskValue (cond : OmostCanvasCondition) (r c : ℕ) : ℤ :=
  (cond.mask.getD (fun _ _ => 0)) r c

/-- Spec-side membership in the half-open rectangle `[a,b) × [c,d)`, as
the specification words it (used to compare the code's slice semantics
with the spec's description). -/
def specRectMember (rect : ℤ × ℤ × ℤ × ℤ) (r c : ℕ) : Prop :=
  rect.1 ≤ (r : ℤ) ∧ (r : ℤ) < rect.2.1 ∧ rect.2.2.1 ≤ (c : ℤ) ∧ (c : ℤ) < rect.2.2.2

instance (rect : ℤ × ℤ × ℤ × ℤ) (r c : ℕ) : Decidable (specRectMember rect r c) := by
  unfold specRectMember; infer_instance

/-- A rectangle in the range the spec assumes: `0 ≤ a ≤ b ≤ 90`,
`0 ≤ c ≤ d ≤ 90`. -/
def rectInRange (rect : ℤ × ℤ × ℤ × ℤ) : Prop :=
  0 ≤ rect.1 ∧ rect.1 ≤ rect.2.1 ∧ rect.2.1 ≤ CANVAS_SIZE ∧
    0 ≤ rect.2.2.1 ∧ rect.2.2.1 ≤ rect.2.2.2 ∧ rect.2.2.2 ≤ CANVAS_SIZE

instance (rect : ℤ × ℤ × ℤ × ℤ) : Decidable (rectInRange rect) := by
  unfold rectInRange; infer_instance

/-- Result of the CLIP text-encode collaborator for one prompt: the
per-token embedding tensor (a sequence over an abstract token-embedding
type `α`, so `torch.cat(..., dim=1)` is list concatenation) and the pooled
summary vector (an abstract `β`). -/
structure EncodedText (α β : Type) where
  tokens : List α
  pooled : β

/-- Embedding of `encode_bag_of_subprompts` (lines 241–267), with the text encoder
abstracted as an uninterpreted function `encode`.  For each suffix the
complete prompt is `"".join(prefixes + [target])`; each prompt is encoded
independently (the `assert len(cond) == 1` makes each encoding contribute
exactly one condition); the result concatenates all token embeddings along
the sequence axis and takes `conds[0]`'s pooled output — which indexes an
empty list, i.e. fails (`none`), when `suffixes` is empty. -/
def encode_bag_of_subprompts {α β : Type} (encode : String → EncodedText α β)
    (prefixes suffixes : List String) : Option (EncodedText α β) :=
  let conds := suffixes.map fun target => encode (String.join (prefixes ++ [target]))
  match conds with
  | [] => none
  | c0 :: _ =>
    some { tokens := (conds.map EncodedText.tokens).flatten, pooled := c0.pooled }

/-- Modelled from the spec's §4.2 wording: one complete prompt per suffix
(all retained prefixes, then that suffix), each encoded independently, the
per-token embeddings concatenated in suffix order, and the pooled vector
taken from the first suffix's encoding. -/
def specBagOfSubprompts {α β : Type} (encode : String → EncodedText α β)
    (prefixes suffixes : List String) : Option (EncodedText α β) :=
  match suffixes with
  | [] => none
  | s0 :: _ =>
    some { tokens := (suffixes.map fun s =>
             (encode (String.join (prefixes ++ [s]))).tokens).flatten,
           pooled := (encode (String.join (prefixes ++ [s0]))).pooled }

/-- The per-region loop of `layout_cond` (lines 307–326): enumerate the
regions of the masked canvas, drop the first (global) prefix for
non-global regions (`prefixes[1:]`), encode the bag of subprompts and pair
it with the region's mask (the pair handed to the ConditioningSetMask
collaborator).  `i` is the enumeration index. -/
def layoutLoop {α β : Type} (encode : String → EncodedText α β) :
    ℕ → List OmostCanvasCondition → Option (List (EncodedText α β × Mask))
  | _, [] => some []
  | i, cond :: rest =>
    match encode_bag_of_subprompts encode
        (if i = 0 then cond.prefixes else cond.prefixes.tail) cond.suffixes,
      cond.mask with
    | some e, some m => (layoutLoop encode (i + 1) rest).map fun l => (e, m) :: l
    | _, _ => none

/-- Embedding of `layout_cond` (lines 294–328), keeping its algorithmic content: compute
the region masks, then produce one (conditioning, mask) pair per region in
order.  (Appending to the optional incoming `positive` list and the
strength applied by the ConditioningSetMask collaborator carry no logic of
this repository and are not modelled.) -/
def layout_cond {α β : Type} (encode : String → EncodedText α β)
    (canvas_conds : List OmostCanvasCondition) :
    Option (List (EncodedText α β × Mask)) :=
  (calc_cond_mask canvas_conds).bind (layoutLoop encode 0)

/-- The worked example of the specification: a global region, a
full-canvas region and a nested sub-rectangle. -/
def exampleRegions : List OmostCanvasCondition :=
  [⟨(0, 0, 0, 0), ["g0"], ["s0"], none⟩,
   ⟨(0, 90, 0, 90), ["g0", "p1"], ["s1"], none⟩,
   ⟨(10, 20, 10, 20), ["g0", "p2"], ["s2"], none⟩]

/-- The list `exampleRegions` after mask computation. -/
def exampleMasked : List OmostCanvasCondition :=
  (calc_cond_mask exampleRegions).getD []

def fallbackRegion : OmostCanvasCondition := ⟨(0, 0, 0, 0), [], [], none⟩

def exMasked1 : OmostCanvasCondition := (exampleMasked[1]?).getD fallbackRegion

def exMasked2 : OmostCanvasCondition := (exampleMasked[2]?).getD fallbackRegion

/-- A zero-area second region. -/
def exampleDegenerate : List OmostCanvasCondition :=
  [⟨(0, 0, 0, 0), ["g0"], ["s0"], none⟩, ⟨(5, 5, 5, 5), ["g0", "p1"], ["s1"], none⟩]

/-- A one-region sequence whose region has no suffixes. -/
def exampleNoSuffix : List OmostCanvasCondition :=
  [⟨(0, 0, 0, 0), ["g0"], [], none⟩]

/-- A concrete stand-in for the text encoder, used to instantiate the
uninterpreted-encoder theorems on closed inputs. -/
def exEncode : String → EncodedText String String := fun s => ⟨[s], s⟩

/-- Output of `layout_cond` on the worked example under `exEncode`. -/
def exampleLayout : List (EncodedText String String × Mask) :=
  (layout_cond exEncode exampleRegions).getD []

def exLayout1 : EncodedText String String × Mask :=
  (exampleLayout[1]?).getD (⟨[], ""⟩, fun _ _ => 0)

theorem maskLoop_length (L : List OmostCanvasCondition) (st : Mask) :
    (maskLoop st L).2.length = L.length := by
  induction L generalizing st with
  | nil => rfl
  | cons cond rest ih => simp [maskLoop, ih]

/-- Structure of the `i`-th processed region: original fields with the
mask set to the rectangle indicator times one minus the state reached
after the `i` regions before it. -/
theorem maskLoop_getElem (L : List OmostCanvasCondition) (st : Mask) (i : ℕ)
    (h : i < L.length) (h' : i < (maskLoop st L).2.length) :
    (maskLoop st L).2[i] =
      { L[i] with mask := some (fun r c =>
          rectIndicator (L[i].rect) r c * (1 - (maskLoop st (L.take i)).1 r c)) } := by
  induction L generalizing st i with
  | nil => simp at h
  | cons cond rest ih =>
    cases i with
    | zero => rfl
    | succ i =>
      simp only [List.length_cons, Nat.add_lt_add_iff_right] at h
      simpa [maskLoop] using ih _ i h (by simpa [maskLoop_length] using h)

theorem maskLoop_state_binary (L : List OmostCanvasCondition) (st : Mask) (r c : ℕ)
    (h : st r c = 0 ∨ st r c = 1) :
    (maskLoop st L).1 r c = 0 ∨ (maskLoop st L).1 r c = 1 := by
  induction L generalizing st with
  | nil => exact h
  | cons cond rest ih =>
    refine ih _ ?_
    rcases h with h | h <;> simp only [h, rectIndicator] <;>
      rcases Bool.eq_false_or_eq_true (rectCovers cond.rect r c) with hb | hb <;>
        simp [hb]

/-- The running `canvas_state` is 1 at a cell exactly when it started at 1
there or some region already processed covers the cell. -/
theorem maskLoop_state_eq_one_iff (L : List OmostCanvasCondition) (st : Mask) (r c : ℕ)
    (h : st r c = 0 ∨ st r c = 1) :
    ((maskLoop st L).1 r c = 1 ↔
      st r c = 1 ∨ ∃ j : Fin L.length, rectCovers ((L.get j).rect) r c) := by
  induction L generalizing st with
  | nil => simp [maskLoop]
  | cons cond rest ih =>
    have h1 : (maskLoop st (cond :: rest)).1 =
        (maskLoop (fun r c => st r c + rectIndicator cond.rect r c * (1 - st r c)) rest).1 :=
      rfl
    have hb : (fun r c => st r c + rectIndicator cond.rect r c * (1 - st r c)) r c = 0 ∨
        (fun r c => st r c + rectIndicator cond.rect r c * (1 - st r c)) r c = 1 := by
      rcases h with h | h <;>
        rcases Bool.eq_false_or_eq_true (rectCovers cond.rect r c) with hc | hc <;>
          simp [h, rectIndicator, hc]
    rw [h1, ih _ hb]
    rcases h with h | h <;>
      rcases Bool.eq_false_or_eq_true (rectCovers cond.rect r c) with hc | hc <;>
        simp [h, rectIndicator, hc, List.length_cons, Fin.exists_fin_succ, or_assoc]

theorem calc_cond_mask_length (conds res : List OmostCanvasCondition)
    (hres : calc_cond_mask conds = some res) : res.length = conds.length := by
  cases conds with
  | nil => simp [calc_cond_mask] at hres
  | cons g rest =>
    simp only [calc_cond_mask, Option.some.injEq] at hres
    subst hres
    simp [maskLoop_length]

/-- Structure of the `i`-th non-global output region (`i` is the index in
the tail): the input region with its mask set to its rectangle indicator
times one minus the state accumulated over the regions after it in the
original list (the ones processed before it in reverse order). -/
theorem calc_cond_mask_tail_getElem (g : OmostCanvasCondition)
    (rest res : List OmostCanvasCondition)
    (hres : calc_cond_mask (g :: rest) = some res) (i : ℕ) (hi : i < rest.length)
    (h' : i + 1 < res.length) :
    res[i + 1] = { rest[i] with mask := some (fun r c =>
      rectIndicator (rest[i].rect) r c *
        (1 - (maskLoop (fun _ _ => 0)
          (rest.reverse.take (rest.length - 1 - i))).1 r c)) } := by
  simp only [calc_cond_mask, Option.some.injEq] at hres
  subst hres
  rw [List.getElem_cons_succ, List.getElem_reverse, maskLoop_getElem]
  · simp only [maskLoop_length, List.length_reverse]
    rw [List.getElem_reverse]
    simp only [maskLoop_length, List.length_reverse,
      show rest.length - 1 - (rest.length - 1 - i) = i from by omega]
  · simp only [maskLoop_length, List.length_reverse]
    omega

/-- Pointwise value of a non-global region's mask: 1 exactly when the
region's own slice-rectangle covers the cell and no region strictly later
in the original list covers it; 0 otherwise.  (Code-level version, using
the slice semantics `rectCovers`; no range assumption needed.) -/
theorem calc_cond_mask_maskValue (g : OmostCanvasCondition)
    (rest res : List OmostCanvasCondition)
    (hres : calc_cond_mask (g :: rest) = some res) (i : ℕ) (hi : i < rest.length)
    (h' : i + 1 < res.length) (r c : ℕ) :
    maskValue (res[i + 1]) r c =
      if rectCovers (rest[i].rect) r c ∧
          ∀ j (hj : j < rest.length), i < j → ¬ rectCovers (rest[j].rect) r c
        then 1 else 0 := by
  rw [calc_cond_mask_tail_getElem g rest res hres i hi h']
  show rectIndicator (rest[i].rect) r c *
      (1 - (maskLoop (fun _ _ => 0)
        (rest.reverse.take (rest.length - 1 - i))).1 r c) = _
  have hbin : (maskLoop (fun _ _ => 0)
      (rest.reverse.take (rest.length - 1 - i))).1 r c = 0 ∨
      (maskLoop (fun _ _ => 0)
        (rest.reverse.take (rest.length - 1 - i))).1 r c = 1 :=
    maskLoop_state_binary _ _ r c (Or.inl rfl)
  have hone : (maskLoop (fun _ _ => 0)
      (rest.reverse.take (rest.length - 1 - i))).1 r c = 1 ↔
      ∃ j, ∃ hj : j < rest.length, i < j ∧ rectCovers (rest[j].rect) r c := by
    rw [maskLoop_state_eq_one_iff _ _ r c (Or.inl rfl)]
    constructor
    · rintro (h0 | ⟨⟨j, hj⟩, hcov⟩)
      · exact absurd h0 (by norm_num)
      · have hj' : j < rest.length - 1 - i := by
          have h2 := hj
          simp only [List.length_take, List.length_reverse, lt_min_iff] at h2
          exact h2.1
        simp only [List.get_eq_getElem, List.getElem_take, List.getElem_reverse] at hcov
        exact ⟨rest.length - 1 - j, by omega, by omega, hcov⟩
    · rintro ⟨j, hj, hij, hcov⟩
      refine Or.inr ⟨⟨rest.length - 1 - j, ?_⟩, ?_⟩
      · simp only [List.length_take, List.length_reverse]
        omega
      · simp only [List.get_eq_getElem, List.getElem_take, List.getElem_reverse,
          List.length_reverse, show rest.length - 1 - (rest.length - 1 - j) = j from by omega]
        exact hcov
  cases hcov : rectCovers (rest[i].rect) r c with
  | false =>
    rw [if_neg (by simp [hcov])]
    simp [rectIndicator, hcov]
  | true =>
    rcases hbin with h0 | h1
    · have hnone : ∀ j (hj : j < rest.length), i < j → ¬ rectCovers (rest[j].rect) r c := by
        intro j hj hij hc
        have h2 : (maskLoop (fun _ _ => 0)
            (rest.reverse.take (rest.length - 1 - i))).1 r c = 1 :=
          hone.mpr ⟨j, hj, hij, hc⟩
        omega
      rw [if_pos ⟨rfl, hnone⟩]
      simp [rectIndicator, hcov, h0]
    · obtain ⟨j, hj, hij, hc⟩ := hone.mp h1
      rw [if_neg (by rintro ⟨-, hall⟩; exact hall j hj hij hc)]
      simp [rectIndicator, hcov, h1]

/-- Every output region keeps its `rect`, `prefixes` and `suffixes` and
carries a populated mask. -/
theorem calc_cond_mask_fields (conds res : List OmostCanvasCondition)
    (hres : calc_cond_mask conds = some res) (i : ℕ) (h : i < conds.length)
    (h' : i < res.length) :
    (res[i]).rect = (conds[i]).rect ∧
      (res[i]).prefixes = (conds[i]).prefixes ∧
      (res[i]).suffixes = (conds[i]).suffixes ∧
      (res[i]).mask.isSome := by
  cases conds with
  | nil => simp at h
  | cons g rest =>
    cases i with
    | zero =>
      simp only [calc_cond_mask, Option.some.injEq] at hres
      subst hres
      simp
    | succ i =>
      have hi : i < rest.length := by simpa using h
      rw [calc_cond_mask_tail_getElem g rest res hres i hi h']
      simp

theorem sliceIdx_of_nonneg (len : ℕ) (i : ℤ) (h0 : 0 ≤ i) (h1 : i ≤ (len : ℤ)) :
    sliceIdx len i = i.toNat := by
  simp only [sliceIdx, if_neg (not_lt.mpr h0)]
  omega

/-- For a rectangle in the spec's range, the code's slice semantics agree
with the spec's half-open rectangle membership. -/
theorem rectCovers_iff_specRectMember (rect : ℤ × ℤ × ℤ × ℤ) (h : rectInRange rect)
    (r c : ℕ) : rectCovers rect r c = true ↔ specRectMember rect r c := by
  obtain ⟨a, b, c0, d⟩ := rect
  obtain ⟨h1, h2, h3, h4, h5, h6⟩ := h
  simp only [rectCovers, inSlice] at *
  rw [sliceIdx_of_nonneg _ _ h1 (le_trans h2 h3),
    sliceIdx_of_nonneg _ _ (le_trans h1 h2) h3,
    sliceIdx_of_nonneg _ _ h4 (le_trans h5 h6),
    sliceIdx_of_nonneg _ _ (le_trans h4 h5) h6]
  simp only [Bool.and_eq_true, decide_eq_true_eq, specRectMember]
  omega

/-- C2: for every non-empty region sequence the first (global) region's
output mask is the all-ones grid, unconditionally, with every other field
of the region unchanged — in particular independently of its `rect`. -/
theorem calc_cond_mask_global_all_ones (g : OmostCanvasCondition)
    (rest : List OmostCanvasCondition) :
    ∃ res, calc_cond_mask (g :: rest) = some res ∧
      res[0]? = some { g with mask := some (fun _ _ => 1) } :=
  ⟨_, rfl, by simp⟩

/-- C5: `calc_cond_mask` fails (the `assert len(canvas_conds) > 0`)
exactly on the empty region sequence; every non-empty sequence succeeds,
whatever the rectangles contain — there is no other validation. -/
theorem calc_cond_mask_none_iff_empty (conds : List OmostCanvasCondition) :
    calc_cond_mask conds = none ↔ conds = [] := by
  cases conds <;> simp [calc_cond_mask]

/-- C1: for in-range rectangles, every non-global region's computed mask
is 1 exactly at the grid cells of its own half-open rectangle
`[a,b) × [c,d)` that lie in no rectangle of a region strictly later in the
original list, and 0 everywhere else (last-in-list wins on overlap). -/
theorem calc_cond_mask_last_in_list_wins
    (conds : List OmostCanvasCondition)
    (hrange : ∀ cond ∈ conds, rectInRange cond.rect)
    (i : ℕ) (h1 : 1 ≤ i) (h2 : i < conds.length)
    (r c : ℕ) (hr : r < CANVAS_SIZE) (hc : c < CANVAS_SIZE) :
    ∃ res ri, calc_cond_mask conds = some res ∧ res[i]? = some ri ∧
      maskValue ri r c =
        if specRectMember ((conds[i]).rect) r c ∧
            ∀ j (hj : j < conds.length), i < j → ¬ specRectMember ((conds[j]).rect) r c
          then 1 else 0 := by
  cases conds with
  | nil => simp at h2
  | cons g rest =>
    cases i with
    | zero => omega
    | succ i =>
      have hi : i < rest.length := by simpa using h2
      obtain ⟨res, hres⟩ : ∃ res, calc_cond_mask (g :: rest) = some res := ⟨_, rfl⟩
      have hlen : res.length = rest.length + 1 := by
        simpa using calc_cond_mask_length _ _ hres
      have hb : i + 1 < res.length := by omega
      refine ⟨res, res[i + 1], hres, List.getElem?_eq_getElem hb, ?_⟩
      rw [calc_cond_mask_maskValue g rest res hres i hi hb]
      refine if_congr ⟨?_, ?_⟩ rfl rfl
      · rintro ⟨hcv, hall⟩
        refine ⟨?_, ?_⟩
        · rw [List.getElem_cons_succ]
          exact (rectCovers_iff_specRectMember _
            (hrange _ (List.mem_cons_of_mem g (List.getElem_mem hi))) r c).mp hcv
        · intro j hj hij
          cases j with
          | zero => omega
          | succ j =>
            have hj' : j < rest.length := by simpa using hj
            rw [List.getElem_cons_succ]
            intro hspec
            exact hall j hj' (by omega)
              ((rectCovers_iff_specRectMember _
                (hrange _ (List.mem_cons_of_mem g (List.getElem_mem hj'))) r c).mpr hspec)
      · rintro ⟨hcv, hall⟩
        refine ⟨?_, ?_⟩
        · rw [List.getElem_cons_succ] at hcv
          exact (rectCovers_iff_specRectMember _
            (hrange _ (List.mem_cons_of_mem g (List.getElem_mem hi))) r c).mpr hcv
        · intro j hj hij hcov
          have hj2 : j + 1 < (g :: rest).length := by simpa using hj
          refine hall (j + 1) hj2 (by omega) ?_
          rw [List.getElem_cons_succ]
          exact (rectCovers_iff_specRectMember _
            (hrange _ (List.mem_cons_of_mem g (List.getElem_mem hj))) r c).mp hcov

theorem calc_cond_mask_disjoint_aux (g : OmostCanvasCondition)
    (rest res : List OmostCanvasCondition)
    (hres : calc_cond_mask (g :: rest) = some res)
    (i j : ℕ) (hij : i < j) (hj : j < rest.length)
    (hbi : i + 1 < res.length) (hbj : j + 1 < res.length) (r c : ℕ) :
    ¬ (maskValue (res[i + 1]) r c = 1 ∧ maskValue (res[j + 1]) r c = 1) := by
  rintro ⟨e1, e2⟩
  rw [calc_cond_mask_maskValue g rest res hres i (by omega) hbi r c] at e1
  rw [calc_cond_mask_maskValue g rest res hres j hj hbj r c] at e2
  by_cases hP1 : rectCovers ((rest[i]).rect) r c ∧
      ∀ k (hk : k < rest.length), i < k → ¬ rectCovers ((rest[k]).rect) r c
  · by_cases hP2 : rectCovers ((rest[j]).rect) r c ∧
        ∀ k (hk : k < rest.length), j < k → ¬ rectCovers ((rest[k]).rect) r c
    · exact hP1.2 j hj hij hP2.1
    · rw [if_neg hP2] at e2
      exact absurd e2 (by norm_num)
  · rw [if_neg hP1] at e1
    exact absurd e1 (by norm_num)

/-- C3: the masks of two distinct non-global regions are disjoint — no
grid cell is 1 in both. -/
theorem calc_cond_mask_masks_disjoint
    (conds res : List OmostCanvasCondition)
    (hres : calc_cond_mask conds = some res)
    (hrange : ∀ cond ∈ conds, rectInRange cond.rect)
    (i j : ℕ) (h1i : 1 ≤ i) (h1j : 1 ≤ j) (hij : i ≠ j)
    (hi : i < conds.length) (hj : j < conds.length)
    (ri rj : OmostCanvasCondition) (hri : res[i]? = some ri) (hrj : res[j]? = some rj)
    (r c : ℕ) (hr : r < CANVAS_SIZE) (hc : c < CANVAS_SIZE) :
    ¬ (maskValue ri r c = 1 ∧ maskValue rj r c = 1) := by
  cases conds with
  | nil => simp at hi
  | cons g rest =>
    have hlen : res.length = rest.length + 1 := by
      simpa using calc_cond_mask_length _ _ hres
    have hi0 : i < rest.length + 1 := by simpa using hi
    have hj0 : j < rest.length + 1 := by simpa using hj
    have hbi : i < res.length := by omega
    have hbj : j < res.length := by omega
    rw [List.getElem?_eq_getElem hbi, Option.some.injEq] at hri
    rw [List.getElem?_eq_getElem hbj, Option.some.injEq] at hrj
    subst hri hrj
    obtain ⟨i, rfl⟩ : ∃ i', i = i' + 1 := ⟨i - 1, by omega⟩
    obtain ⟨j, rfl⟩ : ∃ j', j = j' + 1 := ⟨j - 1, by omega⟩
    rcases Nat.lt_or_ge i j with h | h
    · exact calc_cond_mask_disjoint_aux g rest res hres i j h (by simpa using hj)
        hbi hbj r c
    · have h' : j < i := by omega
      rintro ⟨e1, e2⟩
      exact calc_cond_mask_disjoint_aux g rest res hres j i h' (by simpa using hi)
        hbj hbi r c ⟨e2, e1⟩

/-- C4: a non-global region's mask is 0 at every grid cell outside the
region's own rectangle. -/
theorem calc_cond_mask_zero_outside_rect
    (conds res : List OmostCanvasCondition)
    (hres : calc_cond_mask conds = some res)
    (hrange : ∀ cond ∈ conds, rectInRange cond.rect)
    (i : ℕ) (h1 : 1 ≤ i) (hi : i < conds.length)
    (ri : OmostCanvasCondition) (hri : res[i]? = some ri)
    (r c : ℕ) (hr : r < CANVAS_SIZE) (hc : c < CANVAS_SIZE)
    (hout : ¬ specRectMember ((conds[i]).rect) r c) :
    maskValue ri r c = 0 := by
  cases conds with
  | nil => simp at hi
  | cons g rest =>
    have hlen : res.length = rest.length + 1 := by
      simpa using calc_cond_mask_length _ _ hres
    have hi0 : i < rest.length + 1 := by simpa using hi
    have hbi : i < res.length := by omega
    rw [List.getElem?_eq_getElem hbi, Option.some.injEq] at hri
    subst hri
    obtain ⟨i, rfl⟩ : ∃ i', i = i' + 1 := ⟨i - 1, by omega⟩
    rw [calc_cond_mask_maskValue g rest res hres i (by simpa using hi) hbi r c]
    rw [if_neg]
    rintro ⟨hcv, -⟩
    rw [List.getElem_cons_succ] at hout
    exact hout ((rectCovers_iff_specRectMember _
      (hrange _ (List.mem_cons_of_mem g (List.getElem_mem (by simpa using hi)))) r c).mp hcv)

/-- C6: a non-global region whose rectangle has `a = b` or `c = d` (zero
area) gets the all-zero mask, and the computation still succeeds. -/
theorem calc_cond_mask_degenerate_rect_zero
    (conds : List OmostCanvasCondition)
    (i : ℕ) (h1 : 1 ≤ i) (hi : i < conds.length)
    (hdeg : (conds[i]).rect.1 = (conds[i]).rect.2.1 ∨
            (conds[i]).rect.2.2.1 = (conds[i]).rect.2.2.2) :
    ∃ res ri, calc_cond_mask conds = some res ∧ res[i]? = some ri ∧
      ∀ r c, maskValue ri r c = 0 := by
  cases conds with
  | nil => simp at hi
  | cons g rest =>
    obtain ⟨res, hres⟩ : ∃ res, calc_cond_mask (g :: rest) = some res := ⟨_, rfl⟩
    have hlen : res.length = rest.length + 1 := by
      simpa using calc_cond_mask_length _ _ hres
    have hi0 : i < rest.length + 1 := by simpa using hi
    have hbi : i < res.length := by omega
    obtain ⟨i, rfl⟩ : ∃ i', i = i' + 1 := ⟨i - 1, by omega⟩
    refine ⟨res, res[i + 1], hres, List.getElem?_eq_getElem hbi, ?_⟩
    intro r c
    rw [calc_cond_mask_maskValue g rest res hres i (by simpa using hi) hbi r c]
    rw [if_neg]
    rintro ⟨hcv, -⟩
    rw [List.getElem_cons_succ] at hdeg
    simp only [rectCovers, inSlice, Bool.and_eq_true, decide_eq_true_eq] at hcv
    rcases hdeg with h | h <;> rw [h] at hcv <;> omega

/-- Re-running the mask loop on its own output recomputes exactly the same
masks: the loop reads only the `rect` fields, which it leaves unchanged. -/
theorem maskLoop_idem (L : List OmostCanvasCondition) (st : Mask) :
    maskLoop st (maskLoop st L).2 = maskLoop st L := by
  induction L generalizing st with
  | nil => rfl
  | cons cond rest ih =>
    simp only [maskLoop]
    rw [ih]

/-- C7: `calc_cond_mask` is idempotent — its output is a fixed point, so
applying the algorithm to its own output yields identical mask grids. -/
theorem calc_cond_mask_idempotent (conds res : List OmostCanvasCondition)
    (hres : calc_cond_mask conds = some res) :
    calc_cond_mask res = some res := by
  cases conds with
  | nil => simp [calc_cond_mask] at hres
  | cons g rest =>
    simp only [calc_cond_mask, Option.some.injEq] at hres
    subst hres
    simp only [calc_cond_mask, List.reverse_reverse, Option.some.injEq]
    rw [maskLoop_idem]

/-- C8: the output is the same sequence of regions in the original order;
every field other than `mask` is unchanged and every region now carries a
populated mask. -/
theorem calc_cond_mask_frame (g : OmostCanvasCondition)
    (rest : List OmostCanvasCondition) :
    ∃ res, calc_cond_mask (g :: rest) = some res ∧
      res.length = (g :: rest).length ∧
      ∀ i (hi : i < (g :: rest).length) (hi' : i < res.length),
        (res[i]).rect = ((g :: rest)[i]).rect ∧
        (res[i]).prefixes = ((g :: rest)[i]).prefixes ∧
        (res[i]).suffixes = ((g :: rest)[i]).suffixes ∧
        (res[i]).mask.isSome := by
  obtain ⟨res, hres⟩ : ∃ res, calc_cond_mask (g :: rest) = some res := ⟨_, rfl⟩
  exact ⟨res, hres, calc_cond_mask_length _ _ hres,
    fun i hi hi' => calc_cond_mask_fields _ _ hres i hi hi'⟩

/-- On a non-empty suffix list the code's bag-of-subprompts computation
agrees with the spec's description (and both fail on an empty one). -/
theorem encode_bag_eq_specBag {α β : Type} (encode : String → EncodedText α β)
    (prefixes suffixes : List String) :
    encode_bag_of_subprompts encode prefixes suffixes =
      specBagOfSubprompts encode prefixes suffixes := by
  cases suffixes with
  | nil => rfl
  | cons s0 rest =>
    simp only [encode_bag_of_subprompts, specBagOfSubprompts, List.map_map]
    rfl

/-- Per-element description of `layoutLoop`'s successful output, with `k`
the enumeration index of the first element. -/
theorem layoutLoop_getElem {α β : Type} (encode : String → EncodedText α β)
    (L : List OmostCanvasCondition) (k : ℕ) (out : List (EncodedText α β × Mask))
    (hout : layoutLoop encode k L = some out)
    (i : ℕ) (hi : i < L.length) (hi' : i < out.length) :
    encode_bag_of_subprompts encode
        (if k + i = 0 then (L[i]).prefixes else ((L[i]).prefixes).tail)
        ((L[i]).suffixes) = some ((out[i]).1) ∧
      (L[i]).mask = some ((out[i]).2) := by
  induction L generalizing k out i with
  | nil => simp at hi
  | cons cond rest ih =>
    rw [layoutLoop] at hout
    cases he : encode_bag_of_subprompts encode
        (if k = 0 then cond.prefixes else cond.prefixes.tail) cond.suffixes with
    | none => rw [he] at hout; simp at hout
    | some e =>
      cases hm : cond.mask with
      | none => rw [he, hm] at hout; simp at hout
      | some m =>
        rw [he, hm] at hout
        cases hrec : layoutLoop encode (k + 1) rest with
        | none => rw [hrec] at hout; simp at hout
        | some lrest =>
          rw [hrec] at hout
          simp only [Option.map_some', Option.some.injEq] at hout
          subst hout
          cases i with
          | zero =>
            refine ⟨?_, by simpa using hm⟩
            simpa using he
          | succ i =>
            have h2 := ih (k + 1) lrest hrec i (by simpa using hi) (by simpa using hi')
            rw [if_neg (by omega)] at h2
            simp only [List.getElem_cons_succ]
            rw [if_neg (by omega)]
            exact h2

/-- C9: for every region, the conditioning `layout_cond` produces is
exactly the spec's bag-of-subprompts aggregation: one complete prompt per
suffix (all retained prefixes — the first prefix dropped for non-global
regions — concatenated with that suffix), each encoded independently by
the uninterpreted text encoder, the token embeddings concatenated in
suffix order, and the pooled vector of the first suffix's encoding. -/
theorem layout_cond_encodes_bag_of_subprompts {α β : Type}
    (encode : String → EncodedText α β)
    (conds : List OmostCanvasCondition) (out : List (EncodedText α β × Mask))
    (hout : layout_cond encode conds = some out)
    (i : ℕ) (hi : i < conds.length)
    (ei : EncodedText α β × Mask) (hei : out[i]? = some ei) :
    specBagOfSubprompts encode
        (if i = 0 then (conds[i]).prefixes else ((conds[i]).prefixes).tail)
        ((conds[i]).suffixes) = some ei.1 := by
  unfold layout_cond at hout
  cases hcalc : calc_cond_mask conds with
  | none => rw [hcalc] at hout; simp at hout
  | some res =>
    rw [hcalc, Option.some_bind] at hout
    obtain ⟨hb, hEq⟩ := List.getElem?_eq_some.mp hei
    have hlen := calc_cond_mask_length _ _ hcalc
    have hi' : i < res.length := by omega
    have hfields := calc_cond_mask_fields _ _ hcalc i hi hi'
    have h2 := layoutLoop_getElem encode res 0 out hout i hi' hb
    rw [Nat.zero_add, hfields.2.1, hfields.2.2.1, hEq] at h2
    rw [← encode_bag_eq_specBag]
    exact h2.1

theorem layoutLoop_none_of_empty_suffixes {α β : Type}
    (encode : String → EncodedText α β) (L : List OmostCanvasCondition) (k : ℕ)
    (h : ∃ cond ∈ L, cond.suffixes = []) : layoutLoop encode k L = none := by
  induction L generalizing k with
  | nil => obtain ⟨cond, hmem, -⟩ := h; simp at hmem
  | cons cond rest ih =>
    rw [layoutLoop]
    rcases h with ⟨c0, hmem, hemp⟩
    rcases List.mem_cons.mp hmem with rfl | hmem
    · rw [hemp]
      rfl
    · cases he : encode_bag_of_subprompts encode
          (if k = 0 then cond.prefixes else cond.prefixes.tail) cond.suffixes with
      | none => rfl
      | some e =>
        cases hm : cond.mask with
        | none => rfl
        | some m => rw [ih (k + 1) ⟨c0, hmem, hemp⟩]; rfl

/-- C10: with an empty `suffixes` list the bag-of-subprompts encoder fails
(`conds[0]` indexes an empty list) instead of returning an empty
conditioning, and `layout_cond` fails whenever any region has an empty
`suffixes` list — non-empty suffixes for every region is an unstated
precondition of `layout_cond`. -/
theorem layout_cond_empty_suffixes_fails {α β : Type}
    (encode : String → EncodedText α β) (prefixes : List String)
    (conds : List OmostCanvasCondition) (cond : OmostCanvasCondition)
    (hmem : cond ∈ conds) (hemp : cond.suffixes = []) :
    encode_bag_of_subprompts encode prefixes cond.suffixes = none ∧
      layout_cond encode conds = none := by
  refine ⟨by rw [hemp]; rfl, ?_⟩
  unfold layout_cond
  cases hcalc : calc_cond_mask conds with
  | none => rfl
  | some res =>
    rw [Option.some_bind]
    obtain ⟨j, hj, hEq⟩ := List.getElem_of_mem hmem
    have hlen := calc_cond_mask_length _ _ hcalc
    have hj' : j < res.length := by omega
    have hsuf : (res[j]).suffixes = [] := by
      rw [(calc_cond_mask_fields _ _ hcalc j hj hj').2.2.1, hEq, hemp]
    exact layoutLoop_none_of_empty_suffixes encode res 0 ⟨res[j], List.getElem_mem hj', hsuf⟩

-- Sanity checks of the embedding on the spec's worked example.
example :
    maskValue ((calc_cond_mask
      [⟨(0, 0, 0, 0), [], [], none⟩,
       ⟨(0, 90, 0, 90), [], [], none⟩,
       ⟨(10, 20, 10, 20), [], [], none⟩]).getD [] |>.getD 2 ⟨(0,0,0,0), [], [], none⟩)
      15 15 = 1 := by decide

example :
    maskValue ((calc_cond_mask
      [⟨(0, 0, 0, 0), [], [], none⟩,
       ⟨(0, 90, 0, 90), [], [], none⟩,
       ⟨(10, 20, 10, 20), [], [], none⟩]).getD [] |>.getD 1 ⟨(0,0,0,0), [], [], none⟩)
      15 15 = 0 := by decide

example :
    maskValue ((calc_cond_mask
      [⟨(0, 0, 0, 0), [], [], none⟩,
       ⟨(0, 90, 0, 90), [], [], none⟩,
       ⟨(10, 20, 10, 20), [], [], none⟩]).getD [] |>.getD 1 ⟨(0,0,0,0), [], [], none⟩)
      5 5 = 1 := by decide

/-- Witness for C1 at the worked example, non-global region 1, cell
(15,15): the nested region 2 (later in the list) claims the cell, so the
condition is false and the mask is 0 there. -/
theorem calc_cond_mask_last_in_list_wins_witness :
    ∃ res ri, calc_cond_mask exampleRegions = some res ∧ res[1]? = some ri ∧
      maskValue ri 15 15 =
        if specRectMember ((exampleRegions[1]).rect) 15 15 ∧
            ∀ j (hj : j < exampleRegions.length), 1 < j →
              ¬ specRectMember ((exampleRegions[j]).rect) 15 15
          then 1 else 0 :=
  calc_cond_mask_last_in_list_wins exampleRegions (by decide) 1 (by decide) (by decide)
    15 15 (by decide) (by decide)

/-- Witness for C3 at the worked example: regions 1 and 2 do not both own
cell (15,15). -/
theorem calc_cond_mask_masks_disjoint_witness :
    ¬ (maskValue exMasked1 15 15 = 1 ∧ maskValue exMasked2 15 15 = 1) :=
  calc_cond_mask_masks_disjoint exampleRegions exampleMasked rfl (by decide)
    1 2 (by decide) (by decide) (by decide) (by decide) (by decide)
    exMasked1 exMasked2 rfl rfl 15 15 (by decide) (by decide)

/-- Witness for C4 at the worked example: region 2's mask is 0 at cell
(5,5), which is outside its rectangle. -/
theorem calc_cond_mask_zero_outside_rect_witness : maskValue exMasked2 5 5 = 0 :=
  calc_cond_mask_zero_outside_rect exampleRegions exampleMasked rfl (by decide)
    2 (by decide) (by decide) exMasked2 rfl 5 5 (by decide) (by decide) (by decide)

/-- Witness for C6: the zero-area rectangle (5,5,5,5) yields an all-zero
mask and the computation succeeds. -/
theorem calc_cond_mask_degenerate_rect_zero_witness :
    ∃ res ri, calc_cond_mask exampleDegenerate = some res ∧ res[1]? = some ri ∧
      ∀ r c, maskValue ri r c = 0 :=
  calc_cond_mask_degenerate_rect_zero exampleDegenerate 1 (by decide) (by decide)
    (by decide)

/-- Witness for C7: the masked worked example is a fixed point. -/
theorem calc_cond_mask_idempotent_witness :
    calc_cond_mask exampleMasked = some exampleMasked :=
  calc_cond_mask_idempotent exampleRegions exampleMasked rfl

/-- Witness for C8 on a concrete two-region sequence. -/
theorem calc_cond_mask_frame_witness :
    ∃ res, calc_cond_mask ((⟨(0, 0, 0, 0), ["g0"], ["s0"], none⟩ : OmostCanvasCondition) ::
        [⟨(10, 20, 10, 20), ["g0", "p2"], ["s2"], none⟩]) = some res ∧
      res.length = ((⟨(0, 0, 0, 0), ["g0"], ["s0"], none⟩ : OmostCanvasCondition) ::
        [⟨(10, 20, 10, 20), ["g0", "p2"], ["s2"], none⟩]).length ∧
      ∀ i (hi : i < ((⟨(0, 0, 0, 0), ["g0"], ["s0"], none⟩ : OmostCanvasCondition) ::
          [⟨(10, 20, 10, 20), ["g0", "p2"], ["s2"], none⟩]).length) (hi' : i < res.length),
        (res[i]).rect = (((⟨(0, 0, 0, 0), ["g0"], ["s0"], none⟩ : OmostCanvasCondition) ::
          [⟨(10, 20, 10, 20), ["g0", "p2"], ["s2"], none⟩])[i]).rect ∧
        (res[i]).prefixes = (((⟨(0, 0, 0, 0), ["g0"], ["s0"], none⟩ : OmostCanvasCondition) ::
          [⟨(10, 20, 10, 20), ["g0", "p2"], ["s2"], none⟩])[i]).prefixes ∧
        (res[i]).suffixes = (((⟨(0, 0, 0, 0), ["g0"], ["s0"], none⟩ : OmostCanvasCondition) ::
          [⟨(10, 20, 10, 20), ["g0", "p2"], ["s2"], none⟩])[i]).suffixes ∧
        (res[i]).mask.isSome :=
  calc_cond_mask_frame ⟨(0, 0, 0, 0), ["g0"], ["s0"], none⟩
    [⟨(10, 20, 10, 20), ["g0", "p2"], ["s2"], none⟩]

/-- Witness for C9 at the worked example, region 1, under the concrete
encoder `exEncode`. -/
theorem layout_cond_encodes_bag_of_subprompts_witness :
    specBagOfSubprompts exEncode
        (if 1 = 0 then (exampleRegions[1]).prefixes
         else ((exampleRegions[1]).prefixes).tail)
        ((exampleRegions[1]).suffixes) = some exLayout1.1 :=
  layout_cond_encodes_bag_of_subprompts exEncode exampleRegions exampleLayout rfl
    1 (by decide) exLayout1 rfl

/-- Witness for C10 on the no-suffix example. -/
theorem layout_cond_empty_suffixes_fails_witness :
    encode_bag_of_subprompts exEncode ["p"]
        (⟨(0, 0, 0, 0), ["g0"], [], none⟩ : OmostCanvasCondition).suffixes = none ∧
      layout_cond exEncode exampleNoSuffix = none :=
  layout_cond_empty_suffixes_fails exEncode ["p"] exampleNoSuffix
    ⟨(0, 0, 0, 0), ["g0"], [], none⟩ (List.Mem.head _) rfl
